import Mathlib

set_option maxHeartbeats 1000000
set_option autoImplicit false

/- Shallow embedding of src/resolver.py: an iterative DNS resolver with an
   answer cache and a referral cache (the Python code uses dnspython's
   NameDict for both).  Stateful code is modelled as explicit state passing;
   Python exceptions (KeyError, AttributeError, IndexError, ValueError) are
   modelled with an explicit error type carrying the state at raise time;
   the unbounded recursion of Resolver._resolve_domain is modelled with
   explicit fuel, exhaustion being a distinguished error.  Wall-clock
   latency values are not modelled; instead every network send (query.udp
   call, line 75) is recorded in an explicit query log so that the number
   and order of network interactions is observable. -/

/-- A domain name: the ordered list of labels from the root towards the
    leaf (the root is the empty list; "mail.example.com." is
    ["com", "example", "mail"]).  dns.name labels are case-insensitive; we
    take them already canonicalised.  An ancestor of a name is a list-order
    prefix in this representation. -/
abbrev DName := List String

/-- DNS record types used by the resolver; all other rdtypes are carried
    opaquely by their numeric code. -/
inductive RRType where
  | A
  | NS
  | CNAME
  | SOA
  | OTHER (code : Nat)
deriving DecidableEq

/-- A value stored in the referral cache: dns.name.Name objects for NS
    targets (line 119 stores item.target), plain rendered text for
    everything else (lines 121 and 130 store item.to_text() / item.address
    strings). -/
inductive RVal where
  | name (n : DName)
  | text (s : String)
deriving DecidableEq

/-- The per-name record-set mapping of the referral cache: rdtype to the
    ordered list of stored values (a Python dict keyed by rdtype). -/
abbrev RecordMap := List (RRType × List RVal)

/-- The referral cache: NameDict from names to record maps. -/
abbrev Cache := List (DName × RecordMap)

/-- The answer cache: NameDict from names to (rdtype to rendered text). -/
abbrev AnswerCache := List (DName × List (RRType × String))

/-- Dictionary lookup in a record map (Python `d[rdtype]`; none = KeyError). -/
def lookupRM : RecordMap → RRType → Option (List RVal)
  | [], _ => none
  | (t', vs) :: rest, t => if t' = t then some vs else lookupRM rest t

/-- Dictionary lookup in the referral cache (Python `cache[name]`). -/
def lookupC : Cache → DName → Option RecordMap
  | [], _ => none
  | (n', m) :: rest, n => if n' = n then some m else lookupC rest n

/-- Two-level lookup: the stored record set for (name, rdtype), if any. -/
def lookup2 (c : Cache) (n : DName) (t : RRType) : Option (List RVal) :=
  match lookupC c n with
  | none => none
  | some m => lookupRM m t

/-- `d[rdtype] = values` on a record map: overwrites the rdtype's entry if
    present, appends it otherwise (Python dict assignment). -/
def putRM : RecordMap → RRType → List RVal → RecordMap
  | [], t, vs => [(t, vs)]
  | (t', vs') :: rest, t, vs =>
      if t' = t then (t, vs) :: rest else (t', vs') :: putRM rest t vs

/-- The referral-cache insertion pattern of resolver.py (lines 112-113 and
    122, 128-130): create the name's entry if absent, then assign the
    record set for that rdtype, overwriting any previous one. -/
def putRC : Cache → DName → RRType → List RVal → Cache
  | [], n, t, vs => [(n, putRM [] t vs)]
  | (n', m) :: rest, n, t, vs =>
      if n' = n then (n, putRM m t vs) :: rest else (n', m) :: putRC rest n t vs

/-- Only the entry-creation half of the insertion pattern (the
    `if rr_set.name not in self.referral_cache: ... = dict()` guard), used
    where Python creates the entry before touching the item (line 128-129). -/
def ensureEntry : Cache → DName → Cache
  | [], n => [(n, [])]
  | (n', m) :: rest, n =>
      if n' = n then (n', m) :: rest else (n', m) :: ensureEntry rest n

/-- Inner-dict lookup for the answer cache. -/
def ansLookupRM : List (RRType × String) → RRType → Option String
  | [], _ => none
  | (t', s) :: rest, t => if t' = t then some s else ansLookupRM rest t

/-- Answer-cache lookup: `host in answer_cache and rr_type in
    answer_cache[host]` followed by the double index (resolver.py 44-48). -/
def ansLookup : AnswerCache → DName → RRType → Option String
  | [], _, _ => none
  | (n', m) :: rest, n, t =>
      if n' = n then ansLookupRM m t else ansLookup rest n t

/-- Inner-dict assignment for the answer cache. -/
def ansPutRM : List (RRType × String) → RRType → String → List (RRType × String)
  | [], t, s => [(t, s)]
  | (t', s') :: rest, t, s =>
      if t' = t then (t, s) :: rest else (t', s') :: ansPutRM rest t s

/-- Answer-cache insertion (resolver.py 56-58): create the host entry if
    absent, then assign the rendered answer for the rdtype. -/
def ansPut : AnswerCache → DName → RRType → String → AnswerCache
  | [], n, t, s => [(n, [(t, s)])]
  | (n', m) :: rest, n, t, s =>
      if n' = n then (n, ansPutRM m t s) :: rest else (n', m) :: ansPut rest n t s

/-- NameDict.get_deepest_match, recursion worker over the reversed
    (leaf-first) label list: try the full name, then repeatedly strip the
    leaf-most label, falling through to the root; `none` models the final
    KeyError when not even the empty name is present. -/
def gdmRev (c : Cache) : List String → Option (DName × RecordMap)
  | [] =>
      match lookupC c [] with
      | some m => some ([], m)
      | none => none
  | x :: rest =>
      match lookupC c ((x :: rest).reverse) with
      | some m => some ((x :: rest).reverse, m)
      | none => gdmRev c rest

/-- NameDict.get_deepest_match: the longest ancestor (list-order prefix in
    our representation) of the name that has an entry in the cache. -/
def get_deepest_match (c : Cache) (n : DName) : Option (DName × RecordMap) :=
  gdmRev c n.reverse

/-- Rendering of a name, dns.name.Name.to_text style. -/
def renderName : DName → String
  | [] => "."
  | n => String.intercalate "." n.reverse ++ "."

/-- Rendering of a record type, dns.rdatatype.to_text style. -/
def rrtypeText : RRType → String
  | .A => "A"
  | .NS => "NS"
  | .CNAME => "CNAME"
  | .SOA => "SOA"
  | .OTHER c => "TYPE" ++ toString c

/-- One typed rdata item of a record set, per the transport adapter
    interface (spec section 6: NS gives a target name, A an address
    literal, CNAME a target name, SOA a marker, others opaque text).  The
    constructor is the item's rdtype, as in dnspython where the rdata
    class is determined by the rdtype. -/
inductive Item where
  | ns (target : DName)
  | cname (target : DName)
  | a (address : String)
  | soa (text : String)
  | other (code : Nat) (text : String)
deriving DecidableEq

/-- item.rdtype. -/
def itemType : Item → RRType
  | .ns _ => .NS
  | .cname _ => .CNAME
  | .a _ => .A
  | .soa _ => .SOA
  | .other c _ => .OTHER c

/-- item.target — present only on name-valued rdatas; `none` models the
    AttributeError raised by accessing .target on other rdata classes. -/
def itemTarget : Item → Option DName
  | .ns t => some t
  | .cname t => some t
  | _ => none

/-- item.address — present only on address rdatas; `none` models the
    AttributeError raised by accessing .address on other rdata classes. -/
def itemAddress : Item → Option String
  | .a addr => some addr
  | _ => none

/-- item.to_text(). -/
def itemText : Item → String
  | .ns t => renderName t
  | .cname t => renderName t
  | .a addr => addr
  | .soa s => s
  | .other _ s => s

/-- A record set (dns.rrset.RRset): owner name, rdtype, ordered items. -/
structure RRSet where
  name : DName
  rdtype : RRType
  items : List Item
deriving DecidableEq

/-- A parsed DNS response (dns.message.Message as exposed to the core):
    response code plus the three record-set sections the resolver reads. -/
structure Response where
  rcode : Nat
  answer : List RRSet
  authority : List RRSet
  additional : List RRSet
deriving DecidableEq

/-- rr_set.to_text()-style rendering used inside message rendering. -/
def renderRRSet (rs : RRSet) : String :=
  renderName rs.name ++ " " ++ rrtypeText rs.rdtype ++ " "
    ++ String.intercalate " " (rs.items.map itemText)

/-- Section rendering helper. -/
def renderSection (l : List RRSet) : String :=
  String.intercalate ";" (l.map renderRRSet)

/-- Message.to_text(): the rendered form of a response, as stored in the
    answer cache (resolver.py line 55). -/
def renderResponse (r : Response) : String :=
  "rcode " ++ toString r.rcode
    ++ "|" ++ renderSection r.answer
    ++ "|" ++ renderSection r.authority
    ++ "|" ++ renderSection r.additional

/-- The wire bytes of a name in canonical (leaf-first, length-prefixed)
    form, used for dnspython's rdata ordering. -/
def labelBytes (s : String) : List Nat :=
  s.length :: s.toList.map Char.toNat

/-- Canonical wire form of a name. -/
def nameWire (n : DName) : List Nat :=
  (n.reverse.map labelBytes).flatten ++ [0]

/-- Comparison key of an rdata item under dnspython's rdata ordering
    (bytewise comparison of the canonical wire form).  It is exact for
    name-valued rdatas — the only ones the resolver ever compares, since
    min() is applied to a CNAME record set and record sets are homogeneous
    per the adapter interface (spec section 6) — and a stand-in rendering
    for the remaining classes. -/
def itemWire : Item → List Nat
  | .ns t => nameWire t
  | .cname t => nameWire t
  | .a s => s.toList.map Char.toNat
  | .soa s => s.toList.map Char.toNat
  | .other _ s => s.toList.map Char.toNat

/-- Bytewise lexicographic strict order on wire forms. -/
def bytesLt : List Nat → List Nat → Bool
  | [], [] => false
  | [], _ :: _ => true
  | _ :: _, [] => false
  | a :: as, b :: bs => if a < b then true else if b < a then false else bytesLt as bs

/-- Strict comparison of two rdata items. -/
def itemLt (x y : Item) : Bool :=
  bytesLt (itemWire x) (itemWire y)

/-- Python min() over a record set's items: the first item that no other
    item strictly precedes; `none` models the ValueError of min() on an
    empty sequence. -/
def minItem : List Item → Option Item
  | [] => none
  | i :: rest => some (rest.foldl (fun m x => if itemLt x m then x else m) i)

/-- The seeded root-server names of Resolver.__init__ (lines 14-17). -/
def aRootName : DName := ["net", "root-servers", "a"]

def bRootName : DName := ["net", "root-servers", "b"]

/-- The root record map seeded by Resolver.__init__. -/
def rootSeedMap : RecordMap := [(.NS, [.name aRootName, .name bRootName])]

/-- The referral cache right after Resolver.__init__ (lines 12-17). -/
def initReferral : Cache :=
  [([], rootSeedMap),
   (aRootName, [(.A, [.text "198.41.0.4"])]),
   (bRootName, [(.A, [.text "199.9.14.201"])])]

/-- The mutable state of one Resolver instance: the two caches plus the
    query log (one entry per query.udp call: queried name, queried rdtype,
    server address — the mock-transport call counter of spec section 8).
    The wall-clock latency list is not modelled, only the network
    interactions themselves. -/
structure RState where
  answer_cache : AnswerCache
  referral_cache : Cache
  qlog : List (DName × RRType × String)
deriving DecidableEq

/-- The Python exceptions the resolver can raise, plus fuel exhaustion for
    the unbounded recursion of _resolve_domain (spec sections 4.3 and 7
    note that non-terminating delegation recurses indefinitely). -/
inductive PyErr where
  | keyError
  | attrError
  | idxError
  | valueError
  | fuelOut
deriving DecidableEq

/-- Result of a resolver step: either a raised exception together with the
    state at raise time (Python mutates the caches in place, so mutations
    made before the raise persist), or a value with the new state. -/
abbrev PyRes (α : Type) := Except (PyErr × RState) (α × RState)

/-- The Transport/Protocol Adapter boundary (spec section 6):
    query.udp(make_query(host, rr_type), server_ip, timeout=3) returns a
    parsed response or, on timeout, none. -/
abbrev Transport := DName → RRType → String → Option Response

/-- The rendering used when an RVal is passed as a server address string. -/
def rvalText : RVal → String
  | .name n => renderName n
  | .text s => s

/-- The nameserver loop of _resolve_domain (lines 69-80): for each
    nameserver target in list order, look its A records up in the referral
    cache (KeyError if the target or its A entry is absent — line 70),
    send the query to the first address (IndexError if the A list is
    empty), and stop at the first received response; a timeout advances to
    the next target.  Every send is appended to the query log. -/
def tryServers (T : Transport) (host : DName) (rr : RRType) :
    List RVal → RState → PyRes (Option Response)
  | [], st => .ok (none, st)
  | v :: rest, st =>
      match v with
      | .text _ => .error (.keyError, st)
      | .name nd =>
          match lookupC st.referral_cache nd with
          | none => .error (.keyError, st)
          | some m =>
              match lookupRM m .A with
              | none => .error (.keyError, st)
              | some [] => .error (.idxError, st)
              | some (ip0 :: _) =>
                  let ip := rvalText ip0
                  let st' : RState := { st with qlog := st.qlog ++ [(host, rr, ip)] }
                  match T host rr ip with
                  | some resp => .ok (some resp, st')
                  | none => tryServers T host rr rest st'

/-- One authority record set's item walk (lines 114-121): SOA items set
    the negative-answer flag and are not stored, NS items contribute their
    target names, all other items contribute their rendered text.  Returns
    (item_list, soa_found-for-this-set). -/
def authItems : List Item → List RVal × Bool
  | [] => ([], false)
  | i :: rest =>
      let p := authItems rest
      match i with
      | .soa _ => (p.1, true)
      | .ns t => (.name t :: p.1, p.2)
      | i' => (.text (itemText i') :: p.1, p.2)

/-- The authority-section walk of _handle_response (lines 110-122): each
    record set is ingested into the referral cache under its owner name
    and rdtype; returns the updated cache and whether any SOA item was
    seen. -/
def ingestAuthority : List RRSet → Cache → Cache × Bool
  | [], c => (c, false)
  | rs :: rest, c =>
      let p := authItems rs.items
      let q := ingestAuthority rest (putRC c rs.name rs.rdtype p.1)
      (q.1, p.2 || q.2)

/-- The per-item additional-section ingestion (lines 127-130): for each
    item, ensure the owner's entry exists, then overwrite the (owner,
    rdtype) record set with the one-element list [item.address];
    accessing .address on a non-address rdata raises AttributeError
    (after the entry was created). -/
def ingestItems (n : DName) (t : RRType) : List Item → Cache → Except (PyErr × Cache) Cache
  | [], c => .ok c
  | i :: rest, c =>
      match itemAddress i with
      | none => .error (.attrError, ensureEntry c n)
      | some addr => ingestItems n t rest (putRC c n t [.text addr])

/-- The additional-section walk of _handle_response (lines 126-130). -/
def ingestAdditional : List RRSet → Cache → Except (PyErr × Cache) Cache
  | [], c => .ok c
  | rs :: rest, c =>
      match ingestItems rs.name rs.rdtype rs.items c with
      | .error e => .error e
      | .ok c' => ingestAdditional rest c'

/-- The CNAME scan of _handle_response (lines 104-107): the first record
    set of the answer section whose rdtype is CNAME (the loop breaks at
    the first hit). -/
def firstCname : List RRSet → Option RRSet
  | [] => none
  | rs :: rest => if rs.rdtype = .CNAME then some rs else firstCname rest

/-- Resolver._cname_chase (lines 133-141), parameterised over the descent
    function: take the minimum item of the CNAME record set (ValueError on
    an empty set, AttributeError if it has no .target), compute the
    deepest match for the target (the logging on line 138 indexes the
    matched record map with NS, a KeyError when absent), run a fresh
    descent for (target, A), and prepend the original CNAME record set to
    the nested answer section; a null nested result makes
    `answer.answer.insert` raise AttributeError. -/
def cnameChaseGen
    (rdom : DName → RRType → DName × RecordMap → RState → PyRes (Option Response))
    (rs : RRSet) (st : RState) : PyRes (Option Response) :=
  match minItem rs.items with
  | none => .error (.valueError, st)
  | some mi =>
      match itemTarget mi with
      | none => .error (.attrError, st)
      | some host =>
          match get_deepest_match st.referral_cache host with
          | none => .error (.keyError, st)
          | some dm =>
              match lookupRM dm.2 .NS with
              | none => .error (.keyError, st)
              | some _ =>
                  match rdom host .A dm st with
                  | .error e => .error e
                  | .ok (none, st') => .error (.attrError, st')
                  | .ok (some ans, st') =>
                      .ok (some { ans with answer := rs :: ans.answer }, st')

/-- Resolver._handle_response (lines 99-131), parameterised over the
    descent function used by the CNAME chase: a non-zero rcode is returned
    as the final result; a non-empty answer section is final, chasing the
    first CNAME record set if one is present; otherwise the authority
    section is ingested (SOA marking a negative answer, which is final),
    and failing that the additional glue is ingested and none ("need
    deeper referral") is reported. -/
def handleResponseGen
    (rdom : DName → RRType → DName × RecordMap → RState → PyRes (Option Response))
    (resp : Response) (st : RState) : PyRes (Option Response) :=
  if resp.rcode > 0 then .ok (some resp, st)
  else if resp.answer.isEmpty then
    let p := ingestAuthority resp.authority st.referral_cache
    let st1 : RState := { st with referral_cache := p.1 }
    if p.2 then .ok (some resp, st1)
    else
      match ingestAdditional resp.additional st1.referral_cache with
      | .error ec => .error (ec.1, { st1 with referral_cache := ec.2 })
      | .ok c' => .ok (none, { st1 with referral_cache := c' })
  else
    match firstCname resp.answer with
    | some rs => cnameChaseGen rdom rs st
    | none => .ok (some resp, st)

/-- Resolver._resolve_domain (lines 65-97), with explicit fuel for the
    unbounded "need deeper referral" recursion: fetch the NS list of the
    current referral (KeyError if absent), scan the nameservers, report
    none if every candidate timed out (SERVFAIL), otherwise classify the
    response; on "need deeper referral" recompute the deepest match (the
    logging on line 96 indexes its record map with NS) and recurse. -/
def resolveDomain (T : Transport) :
    Nat → DName → RRType → DName × RecordMap → RState → PyRes (Option Response)
  | 0, _, _, _, st => .error (.fuelOut, st)
  | fuel + 1, host, rr, dm, st =>
      match lookupRM dm.2 .NS with
      | none => .error (.keyError, st)
      | some nsl =>
          match tryServers T host rr nsl st with
          | .error e => .error e
          | .ok (none, st1) => .ok (none, st1)
          | .ok (some resp, st1) =>
              match handleResponseGen (fun h r d s => resolveDomain T fuel h r d s) resp st1 with
              | .error e => .error e
              | .ok (some ans, st2) => .ok (some ans, st2)
              | .ok (none, st2) =>
                  match get_deepest_match st2.referral_cache host with
                  | none => .error (.keyError, st2)
                  | some dm' =>
                      match lookupRM dm'.2 .NS with
                      | none => .error (.keyError, st2)
                      | some _ => resolveDomain T fuel host rr dm' st2

/-- Resolver._handle_response at a given fuel level. -/
def handleResponse (T : Transport) (fuel : Nat) (resp : Response) (st : RState) :
    PyRes (Option Response) :=
  handleResponseGen (fun h r d s => resolveDomain T fuel h r d s) resp st

/-- Resolver._cname_chase at a given fuel level. -/
def cnameChase (T : Transport) (fuel : Nat) (rs : RRSet) (st : RState) :
    PyRes (Option Response) :=
  cnameChaseGen (fun h r d s => resolveDomain T fuel h r d s) rs st

/-- Resolver.resolve (lines 43-63): answer-cache hit returns the cached
    rendering with no network activity; otherwise compute the deepest
    match (the logging on line 52 indexes its record map with NS), run the
    descent, and on a non-null result render it, store it in the answer
    cache and return it; a null result is returned as a failure and not
    cached. -/
def resolve (T : Transport) (fuel : Nat) (host : DName) (rr : RRType) (st : RState) :
    PyRes (Option String) :=
  match ansLookup st.answer_cache host rr with
  | some a => .ok (some a, st)
  | none =>
      match get_deepest_match st.referral_cache host with
      | none => .error (.keyError, st)
      | some dm =>
          match lookupRM dm.2 .NS with
          | none => .error (.keyError, st)
          | some _ =>
              match resolveDomain T fuel host rr dm st with
              | .error e => .error e
              | .ok (none, st1) => .ok (none, st1)
              | .ok (some ans, st1) =>
                  let txt := renderResponse ans
                  .ok (some txt,
                       { st1 with answer_cache := ansPut st1.answer_cache host rr txt })

/-- The resolver state right after Resolver.__init__ (lines 11-18). -/
def initState : RState :=
  { answer_cache := []
    referral_cache := initReferral
    qlog := [] }

/-- Unfolding equation of resolveDomain at positive fuel, phrased through
    handleResponse. -/
theorem resolveDomain_succ (T : Transport) (fuel : Nat) (host : DName) (rr : RRType)
    (dm : DName × RecordMap) (st : RState) :
    resolveDomain T (fuel + 1) host rr dm st =
      match lookupRM dm.2 .NS with
      | none => .error (.keyError, st)
      | some nsl =>
          match tryServers T host rr nsl st with
          | .error e => .error e
          | .ok (none, st1) => .ok (none, st1)
          | .ok (some resp, st1) =>
              match handleResponse T fuel resp st1 with
              | .error e => .error e
              | .ok (some ans, st2) => .ok (some ans, st2)
              | .ok (none, st2) =>
                  match get_deepest_match st2.referral_cache host with
                  | none => .error (.keyError, st2)
                  | some dm' =>
                      match lookupRM dm'.2 .NS with
                      | none => .error (.keyError, st2)
                      | some _ => resolveDomain T fuel host rr dm' st2 := rfl

/-- A transport on which every query times out. -/
def timeoutTransport : Transport := fun _ _ _ => none

/-- An upstream NXDOMAIN-style error response. -/
def errResp : Response := { rcode := 3, answer := [], authority := [], additional := [] }

/-- A transport whose first-contacted server answers with errResp. -/
def errTransport : Transport := fun _ _ _ => some errResp

/-- A plain successful A answer for "com.". -/
def okResp : Response :=
  { rcode := 0, answer := [⟨["com"], .A, [.a "1.2.3.4"]⟩], authority := [], additional := [] }

/-- A transport whose first-contacted server answers with okResp. -/
def okTransport : Transport := fun _ _ _ => some okResp

/- ===== generic association lemmas about the cache operations ===== -/

theorem lookupRM_putRM_self (m : RecordMap) (t : RRType) (vs : List RVal) :
    lookupRM (putRM m t vs) t = some vs := by
  induction m with
  | nil => simp [putRM, lookupRM]
  | cons p rest ih =>
      obtain ⟨t', vs'⟩ := p
      by_cases h : t' = t
      · subst h; simp [putRM, lookupRM]
      · simp [putRM, lookupRM, h, ih]

theorem lookupRM_putRM_other (m : RecordMap) (t t' : RRType) (vs : List RVal)
    (h : t' ≠ t) : lookupRM (putRM m t vs) t' = lookupRM m t' := by
  induction m with
  | nil => simp [putRM, lookupRM, Ne.symm h]
  | cons p rest ih =>
      obtain ⟨t₀, vs₀⟩ := p
      by_cases h0 : t₀ = t
      · subst h0
        simp [putRM, lookupRM, Ne.symm h]
      · simp [putRM, lookupRM, h0, ih]

theorem lookupC_putRC_self (c : Cache) (n : DName) (t : RRType) (vs : List RVal) :
    lookupC (putRC c n t vs) n = some (putRM ((lookupC c n).getD []) t vs) := by
  induction c with
  | nil => simp [putRC, lookupC]
  | cons p rest ih =>
      obtain ⟨n', m⟩ := p
      by_cases h : n' = n
      · subst h; simp [putRC, lookupC]
      · simp [putRC, lookupC, h, ih]

theorem lookupC_putRC_other (c : Cache) (n n' : DName) (t : RRType) (vs : List RVal)
    (h : n' ≠ n) : lookupC (putRC c n t vs) n' = lookupC c n' := by
  induction c with
  | nil => simp [putRC, lookupC, Ne.symm h]
  | cons p rest ih =>
      obtain ⟨n₀, m⟩ := p
      by_cases h0 : n₀ = n
      · subst h0
        simp [putRC, lookupC, Ne.symm h]
      · simp [putRC, lookupC, h0, ih]

theorem lookup2_putRC_self (c : Cache) (n : DName) (t : RRType) (vs : List RVal) :
    lookup2 (putRC c n t vs) n t = some vs := by
  unfold lookup2
  rw [lookupC_putRC_self]
  exact lookupRM_putRM_self _ _ _

theorem lookup2_putRC_other (c : Cache) (n n' : DName) (t t' : RRType) (vs : List RVal)
    (h : n' ≠ n ∨ t' ≠ t) : lookup2 (putRC c n t vs) n' t' = lookup2 c n' t' := by
  by_cases hn : n' = n
  · subst hn
    have ht : t' ≠ t := h.resolve_left (fun hh => hh rfl)
    unfold lookup2
    rw [lookupC_putRC_self]
    cases hc : lookupC c n' with
    | none => simp [hc, lookupRM_putRM_other _ _ _ _ ht, lookupRM, Ne.symm ht]
    | some m => simp [hc, lookupRM_putRM_other _ _ _ _ ht]
  · unfold lookup2
    rw [lookupC_putRC_other _ _ _ _ _ hn]

theorem ansLookup_ansPut_self (ac : AnswerCache) (n : DName) (t : RRType) (s : String) :
    ansLookup (ansPut ac n t s) n t = some s := by
  have hrm : ∀ (m : List (RRType × String)), ansLookupRM (ansPutRM m t s) t = some s := by
    intro m
    induction m with
    | nil => simp [ansPutRM, ansLookupRM]
    | cons p rest ih =>
        obtain ⟨t', s'⟩ := p
        by_cases h : t' = t
        · subst h; simp [ansPutRM, ansLookupRM]
        · simp [ansPutRM, ansLookupRM, h, ih]
  induction ac with
  | nil => simp [ansPut, ansLookup, ansLookupRM]
  | cons p rest ih =>
      obtain ⟨n', m⟩ := p
      by_cases h : n' = n
      · subst h; simp [ansPut, ansLookup, hrm]
      · simp [ansPut, ansLookup, h, ih]

/-- Claim C10: a referral-cache insertion put(name, type, values) creates
    the name's entry if absent and overwrites any record set previously
    stored for (name, type) with exactly the new values (no merging),
    leaving every other (name, type) pair untouched. -/
theorem referral_put_overwrites (c : Cache) (n : DName) (t : RRType) (vs : List RVal) :
    lookup2 (putRC c n t vs) n t = some vs ∧
    ∀ n' t', n' ≠ n ∨ t' ≠ t → lookup2 (putRC c n t vs) n' t' = lookup2 c n' t' :=
  ⟨lookup2_putRC_self c n t vs, fun n' t' h => lookup2_putRC_other c n n' t t' vs h⟩

/-- Witness for C10: overwriting the seeded A entry of a.root-servers.net
    replaces the old value list outright and leaves b.root-servers.net
    untouched. -/
theorem referral_put_overwrites_witness :
    lookup2 (putRC initReferral aRootName .A [.text "7.7.7.7"]) aRootName .A
        = some [.text "7.7.7.7"] ∧
    lookup2 (putRC initReferral aRootName .A [.text "7.7.7.7"]) bRootName .A
        = lookup2 initReferral bRootName .A :=
  ⟨(referral_put_overwrites initReferral aRootName .A [.text "7.7.7.7"]).1,
   (referral_put_overwrites initReferral aRootName .A [.text "7.7.7.7"]).2 bRootName .A
     (Or.inl (by decide))⟩

/-- Claim C6: when the nameserver scan of a descent step obtains a response
    whose error code is non-zero, classification treats it as the final
    result: the descent returns that very error response (not null) with no
    further queries or descent, so the upstream DNS-level failure is
    forwarded verbatim to the caller. -/
theorem error_response_final (T : Transport) (f : Nat) (host : DName) (rr : RRType)
    (dm : DName × RecordMap) (st st1 : RState) (nsl : List RVal) (resp : Response)
    (hns : lookupRM dm.2 .NS = some nsl)
    (hscan : tryServers T host rr nsl st = .ok (some resp, st1))
    (hrc : resp.rcode > 0) :
    resolveDomain T (f + 1) host rr dm st = .ok (some resp, st1) := by
  rw [resolveDomain_succ, hns]
  simp only [hscan, handleResponse, handleResponseGen, hrc, if_pos]

/-- Witness for C6: a server replying NXDOMAIN (rcode 3) from the root has
    its error response forwarded as the final result of the descent. -/
theorem error_response_final_witness :
    resolveDomain errTransport 1 ["com"] .A ([], rootSeedMap) initState =
      .ok (some errResp, { initState with qlog := [(["com"], .A, "198.41.0.4")] }) :=
  error_response_final errTransport 0 ["com"] .A ([], rootSeedMap) initState
    { initState with qlog := [(["com"], .A, "198.41.0.4")] }
    [.name aRootName, .name bRootName] errResp rfl rfl (by decide)

/-- Any resolve call that returns a rendered answer leaves that rendering
    stored in the answer cache under (host, rr_type). -/
theorem resolve_some_cached (T : Transport) (fuel : Nat) (host : DName) (rr : RRType)
    (st st₁ : RState) (a : String)
    (h : resolve T fuel host rr st = .ok (some a, st₁)) :
    ansLookup st₁.answer_cache host rr = some a := by
  unfold resolve at h
  cases hal : ansLookup st.answer_cache host rr with
  | some a₀ =>
      simp only [hal] at h
      simp at h
      obtain ⟨ha, hst⟩ := h
      subst ha
      subst hst
      exact hal
  | none =>
      simp only [hal] at h
      cases hdm : get_deepest_match st.referral_cache host with
      | none => simp [hdm] at h
      | some dm =>
          simp only [hdm] at h
          cases hns : lookupRM dm.2 .NS with
          | none => simp [hns] at h
          | some nsl =>
              simp only [hns] at h
              cases hrd : resolveDomain T fuel host rr dm st with
              | error e => simp [hrd] at h
              | ok p =>
                  obtain ⟨res, st'⟩ := p
                  simp only [hrd] at h
                  cases res with
                  | none => simp at h
                  | some ans =>
                      simp at h
                      obtain ⟨ha, hst⟩ := h
                      subst ha
                      subst hst
                      exact ansLookup_ansPut_self st'.answer_cache host rr _

/-- Claim C1: if a resolve of (host, rr_type) completes with a rendered
    answer, a second resolve of the same pair — under any transport and any
    fuel — returns the identical rendered answer and leaves the state
    completely unchanged; in particular the query log does not grow, i.e.
    the second call performs zero network interactions (the answer cache is
    consulted before any query could be issued). -/
theorem answer_cache_idempotent (T T' : Transport) (fuel fuel' : Nat) (host : DName)
    (rr : RRType) (st st₁ : RState) (a : String)
    (h : resolve T fuel host rr st = .ok (some a, st₁)) :
    resolve T' fuel' host rr st₁ = .ok (some a, st₁) := by
  have hl := resolve_some_cached T fuel host rr st st₁ a h
  unfold resolve
  simp only [hl]

/-- The state after the first successful resolve of ("com.", A) from the
    fresh state under okTransport. -/
def onceState : RState :=
  { answer_cache := [(["com"], [(.A, renderResponse okResp)])]
    referral_cache := initReferral
    qlog := [(["com"], .A, "198.41.0.4")] }

/-- Witness for C1: after resolving ("com.", A) once under okTransport, a
    second resolve — even under a transport on which every query would time
    out, and with zero fuel — returns the same rendered answer with the
    state unchanged. -/
theorem answer_cache_idempotent_witness :
    resolve timeoutTransport 0 ["com"] .A onceState =
      .ok (some (renderResponse okResp), onceState) :=
  answer_cache_idempotent okTransport timeoutTransport 1 0 ["com"] .A initState
    onceState (renderResponse okResp) rfl

/-- The nameserver scan touches only the query log: caches are unchanged on
    any non-exceptional outcome. -/
theorem tryServers_ok_state (T : Transport) (host : DName) (rr : RRType) :
    ∀ (l : List RVal) (st : RState) (res : Option Response) (st' : RState),
      tryServers T host rr l st = .ok (res, st') →
      st'.answer_cache = st.answer_cache ∧ st'.referral_cache = st.referral_cache := by
  intro l
  induction l with
  | nil =>
      intro st res st' h
      unfold tryServers at h
      simp at h
      obtain ⟨-, hst⟩ := h
      subst hst
      exact ⟨rfl, rfl⟩
  | cons v rest ih =>
      intro st res st' h
      unfold tryServers at h
      cases v with
      | text s => simp at h
      | name nd =>
          cases hc : lookupC st.referral_cache nd with
          | none => simp [hc] at h
          | some m =>
              simp only [hc] at h
              cases hrm : lookupRM m .A with
              | none => simp [hrm] at h
              | some ips =>
                  simp only [hrm] at h
                  cases ips with
                  | nil => simp at h
                  | cons ip0 rest' =>
                      simp only [] at h
                      cases hT : T host rr (rvalText ip0) with
                      | some resp =>
                          simp only [hT] at h
                          simp at h
                          obtain ⟨-, hst⟩ := h
                          subst hst
                          exact ⟨rfl, rfl⟩
                      | none =>
                          simp only [hT] at h
                          exact ih { st with qlog := st.qlog ++ [(host, rr, rvalText ip0)] }
                            res st' h

/-- The CNAME chase preserves the answer cache whenever the descent
    function it is given does. -/
theorem cnameChaseGen_ac
    (rdom : DName → RRType → DName × RecordMap → RState → PyRes (Option Response))
    (hr : ∀ h r d s res st', rdom h r d s = .ok (res, st') →
        st'.answer_cache = s.answer_cache) :
    ∀ (rs : RRSet) (st : RState) (res : Option Response) (st' : RState),
      cnameChaseGen rdom rs st = .ok (res, st') →
      st'.answer_cache = st.answer_cache := by
  intro rs st res st' h
  unfold cnameChaseGen at h
  cases hmi : minItem rs.items with
  | none => simp [hmi] at h
  | some mi =>
      simp only [hmi] at h
      cases hit : itemTarget mi with
      | none => simp [hit] at h
      | some host =>
          simp only [hit] at h
          cases hdm : get_deepest_match st.referral_cache host with
          | none => simp [hdm] at h
          | some dm =>
              simp only [hdm] at h
              cases hns : lookupRM dm.2 .NS with
              | none => simp [hns] at h
              | some nsl =>
                  simp only [hns] at h
                  cases hrd : rdom host .A dm st with
                  | error e => simp [hrd] at h
                  | ok p =>
                      obtain ⟨nres, st''⟩ := p
                      simp only [hrd] at h
                      cases nres with
                      | none => simp at h
                      | some ans =>
                          simp at h
                          obtain ⟨-, hst⟩ := h
                          subst hst
                          exact hr host .A dm st _ _ hrd

/-- Response classification preserves the answer cache whenever the descent
    function it is given does (it only writes the referral cache). -/
theorem handleResponseGen_ac
    (rdom : DName → RRType → DName × RecordMap → RState → PyRes (Option Response))
    (hr : ∀ h r d s res st', rdom h r d s = .ok (res, st') →
        st'.answer_cache = s.answer_cache) :
    ∀ (resp : Response) (st : RState) (res : Option Response) (st' : RState),
      handleResponseGen rdom resp st = .ok (res, st') →
      st'.answer_cache = st.answer_cache := by
  intro resp st res st' h
  unfold handleResponseGen at h
  by_cases hrc : resp.rcode > 0
  · simp only [if_pos hrc] at h
    simp at h
    obtain ⟨-, hst⟩ := h
    subst hst
    exact rfl
  · simp only [if_neg hrc] at h
    by_cases he : resp.answer.isEmpty
    · simp only [if_pos he] at h
      by_cases hsoa : (ingestAuthority resp.authority st.referral_cache).2
      · simp only [if_pos hsoa] at h
        simp at h
        obtain ⟨-, hst⟩ := h
        subst hst
        exact rfl
      · simp only [if_neg hsoa] at h
        cases hia : ingestAdditional resp.additional
            (ingestAuthority resp.authority st.referral_cache).1 with
        | error e => simp [hia] at h
        | ok c' =>
            simp [hia] at h
            obtain ⟨-, hst⟩ := h
            subst hst
            exact rfl
    · simp only [if_neg he] at h
      cases hfc : firstCname resp.answer with
      | some rs =>
          simp only [hfc] at h
          exact cnameChaseGen_ac rdom hr rs st res st' h
      | none =>
          simp [hfc] at h
          obtain ⟨-, hst⟩ := h
          subst hst
          exact rfl

/-- The iterative descent never writes the answer cache: only the top-level
    resolve does, and only on a rendered (non-null) result. -/
theorem resolveDomain_ac (T : Transport) :
    ∀ (fuel : Nat) (host : DName) (rr : RRType) (dm : DName × RecordMap) (st : RState)
      (res : Option Response) (st' : RState),
      resolveDomain T fuel host rr dm st = .ok (res, st') →
      st'.answer_cache = st.answer_cache := by
  intro fuel
  induction fuel with
  | zero =>
      intro host rr dm st res st' h
      simp [resolveDomain] at h
  | succ fuel ih =>
      intro host rr dm st res st' h
      rw [resolveDomain_succ] at h
      cases hns : lookupRM dm.2 .NS with
      | none => simp [hns] at h
      | some nsl =>
          simp only [hns] at h
          cases hts : tryServers T host rr nsl st with
          | error e => simp [hts] at h
          | ok p =>
              obtain ⟨sres, st1⟩ := p
              simp only [hts] at h
              have h1 := (tryServers_ok_state T host rr nsl st sres st1 hts).1
              cases sres with
              | none =>
                  simp at h
                  obtain ⟨-, hst⟩ := h
                  subst hst
                  exact h1
              | some resp =>
                  have hr : ∀ h r d s nres st', resolveDomain T fuel h r d s = .ok (nres, st') →
                      st'.answer_cache = s.answer_cache := fun h r d s nres st' hh =>
                    ih h r d s nres st' hh
                  cases hhr : handleResponse T fuel resp st1 with
                  | error e => simp [hhr] at h
                  | ok q =>
                      obtain ⟨hres, st2⟩ := q
                      simp only [hhr] at h
                      have h2 : st2.answer_cache = st1.answer_cache :=
                        handleResponseGen_ac _ hr resp st1 hres st2 hhr
                      cases hres with
                      | some ans =>
                          simp at h
                          obtain ⟨-, hst⟩ := h
                          subst hst
                          exact h2.trans h1
                      | none =>
                          cases hdm' : get_deepest_match st2.referral_cache host with
                          | none => simp [hdm'] at h
                          | some dm' =>
                              simp only [hdm'] at h
                              cases hns' : lookupRM dm'.2 .NS with
                              | none => simp [hns'] at h
                              | some nsl' =>
                                  simp only [hns'] at h
                                  have h3 := ih host rr dm' st2 res st' h
                                  exact h3.trans (h2.trans h1)

/-- Claim C5 (amended): a null descent result is reported as a failure and
    leaves the answer cache exactly as it was — a null result is never
    cached.  (The other half of the original claim is false: a response
    carrying a non-zero DNS error code is a non-null result and resolver.py
    line 54-58 stores it in the answer cache; see the counterexample.) -/
theorem null_never_cached (T : Transport) (fuel : Nat) (host : DName) (rr : RRType)
    (st st' : RState)
    (h : resolve T fuel host rr st = .ok (none, st')) :
    st'.answer_cache = st.answer_cache := by
  unfold resolve at h
  cases hal : ansLookup st.answer_cache host rr with
  | some a₀ => simp [hal] at h
  | none =>
      simp only [hal] at h
      cases hdm : get_deepest_match st.referral_cache host with
      | none => simp [hdm] at h
      | some dm =>
          simp only [hdm] at h
          cases hns : lookupRM dm.2 .NS with
          | none => simp [hns] at h
          | some nsl =>
              simp only [hns] at h
              cases hrd : resolveDomain T fuel host rr dm st with
              | error e => simp [hrd] at h
              | ok p =>
                  obtain ⟨res, st1⟩ := p
                  simp only [hrd] at h
                  cases res with
                  | some ans => simp at h
                  | none =>
                      simp at h
                      subst h
                      exact resolveDomain_ac T fuel host rr dm st none st1 hrd

/-- Counterexample to C5 as stated: under a transport whose server answers
    NXDOMAIN (rcode 3), resolve completes with the rendered error response
    and stores it in the answer cache, so a result carrying a non-zero DNS
    error code is stored in the Answer Cache. -/
theorem null_never_cached_counterexample :
    resolve errTransport 1 ["com"] .A initState =
      .ok (some (renderResponse errResp),
        { answer_cache := [(["com"], [(.A, renderResponse errResp)])]
          referral_cache := initReferral
          qlog := [(["com"], .A, "198.41.0.4")] }) ∧
    ansLookup [(["com"], [(.A, renderResponse errResp)])] ["com"] .A
      = some (renderResponse errResp) ∧
    errResp.rcode ≠ 0 :=
  ⟨rfl, rfl, by decide⟩

/-- Witness for C5 (amended): an all-timeout resolution from the fresh
    state returns null and leaves the (empty) answer cache unchanged. -/
theorem null_never_cached_witness :
    ({ initState with
        qlog := [(["com"], .A, "198.41.0.4"),
                 (["com"], .A, "199.9.14.201")] } : RState).answer_cache
      = initState.answer_cache :=
  null_never_cached timeoutTransport 1 ["com"] .A initState
    { initState with
        qlog := [(["com"], .A, "198.41.0.4"), (["com"], .A, "199.9.14.201")] } rfl

/-- One nameserver candidate that will be attempted and time out: it is a
    name with a glue A entry in the given referral cache whose first
    address is ip, and the transport times out on ip. -/
def glueTimeout (T : Transport) (host : DName) (rr : RRType) (c : Cache)
    (v : RVal) (ip : String) : Prop :=
  ∃ nd rest, v = RVal.name nd ∧ lookup2 c nd .A = some (RVal.text ip :: rest) ∧
    T host rr ip = none

/-- Scanning a list that starts with timing-out candidates queries each of
    them once, in order, and then continues with the remaining candidates. -/
theorem tryServers_timeout_shift (T : Transport) (host : DName) (rr : RRType) (c : Cache)
    (sfx : List RVal) :
    ∀ (pre : List RVal) (ips : List String) (st : RState), st.referral_cache = c →
      List.Forall₂ (glueTimeout T host rr c) pre ips →
      tryServers T host rr (pre ++ sfx) st =
        tryServers T host rr sfx
          { st with qlog := st.qlog ++ ips.map (fun ip => (host, rr, ip)) } := by
  intro pre
  induction pre with
  | nil =>
      intro ips st hc hf
      cases hf
      simp
  | cons v pre ih =>
      intro ips st hc hf
      cases hf with
      | cons hrel hf' =>
          rename_i ip ips'
          obtain ⟨nd, rest, hv, hlook, htime⟩ := hrel
          subst hv
          unfold lookup2 at hlook
          cases hm : lookupC c nd with
          | none => simp [hm] at hlook
          | some m =>
              simp only [hm] at hlook
              have step :
                  tryServers T host rr (RVal.name nd :: (pre ++ sfx)) st =
                    tryServers T host rr (pre ++ sfx)
                      { st with qlog := st.qlog ++ [(host, rr, ip)] } := by
                conv_lhs => unfold tryServers
                simp only [hc, hm, hlook, rvalText, htime]
              rw [List.cons_append, step]
              rw [ih ips' { st with qlog := st.qlog ++ [(host, rr, ip)] } hc hf']
              simp [List.append_assoc]

/-- Claim C2: a descent step over a referral whose candidate nameservers
    all time out issues exactly one query per candidate, in list order
    (the query log grows by precisely those attempts), and then returns
    null — a reported failure, not an exception: the timeout never
    surfaces past the descent step. -/
theorem retry_then_fail (T : Transport) (f : Nat) (host : DName) (rr : RRType)
    (anc : DName) (m : RecordMap) (st : RState) (nsl : List RVal) (ips : List String)
    (hns : lookupRM m .NS = some nsl)
    (hall : List.Forall₂ (glueTimeout T host rr st.referral_cache) nsl ips) :
    resolveDomain T (f + 1) host rr (anc, m) st =
      .ok (none, { st with qlog := st.qlog ++ ips.map (fun ip => (host, rr, ip)) }) ∧
    ips.length = nsl.length := by
  constructor
  · rw [resolveDomain_succ]
    simp only [hns]
    have h := tryServers_timeout_shift T host rr st.referral_cache [] nsl ips st rfl hall
    rw [List.append_nil] at h
    rw [h]
    rfl
  · exact (List.Forall₂.length_eq hall).symm

/-- Witness for C2: both seeded root servers time out; the descent step
    under the fresh state attempts exactly the two candidates in order and
    reports failure. -/
theorem retry_then_fail_witness :
    resolveDomain timeoutTransport 1 ["com"] .A ([], rootSeedMap) initState =
      .ok (none, { initState with
        qlog := [(["com"], .A, "198.41.0.4"), (["com"], .A, "199.9.14.201")] }) ∧
    (["198.41.0.4", "199.9.14.201"] : List String).length =
      ([.name aRootName, .name bRootName] : List RVal).length := by
  have h := retry_then_fail timeoutTransport 0 ["com"] .A [] rootSeedMap initState
    [.name aRootName, .name bRootName] ["198.41.0.4", "199.9.14.201"] rfl
    (List.Forall₂.cons ⟨aRootName, [], rfl, rfl, rfl⟩
      (List.Forall₂.cons ⟨bRootName, [], rfl, rfl, rfl⟩ List.Forall₂.nil))
  exact ⟨h.1, h.2⟩

/-- When the scan reaches a candidate whose A records are absent from the
    referral cache, the dictionary index raises KeyError at once. -/
theorem tryServers_missing_glue (T : Transport) (host : DName) (rr : RRType)
    (nd : DName) (rest : List RVal) (st : RState)
    (h : lookup2 st.referral_cache nd .A = none) :
    tryServers T host rr (RVal.name nd :: rest) st = .error (.keyError, st) := by
  unfold lookup2 at h
  cases hm : lookupC st.referral_cache nd with
  | none => unfold tryServers; simp only [hm]
  | some m =>
      simp only [hm] at h
      unfold tryServers
      simp only [hm, h]

/-- Claim C7: when a descent step dereferences a nameserver target that has
    no A record in the referral cache (every earlier candidate in the NS
    list having timed out), the step is a hard KeyError failure, not a
    silent skip: the whole resolution request terminates with that explicit
    failure outcome, and the answer cache receives nothing. -/
theorem missing_glue_fatal (T : Transport) (f : Nat) (host : DName) (rr : RRType)
    (st : RState) (anc : DName) (m : RecordMap) (nsl pre rest : List RVal)
    (nd : DName) (ips : List String)
    (hmiss : ansLookup st.answer_cache host rr = none)
    (hdm : get_deepest_match st.referral_cache host = some (anc, m))
    (hns : lookupRM m .NS = some nsl)
    (hsplit : nsl = pre ++ RVal.name nd :: rest)
    (hpre : List.Forall₂ (glueTimeout T host rr st.referral_cache) pre ips)
    (hnd : lookup2 st.referral_cache nd .A = none) :
    resolve T (f + 1) host rr st =
      .error (.keyError, { st with qlog := st.qlog ++ ips.map (fun ip => (host, rr, ip)) }) ∧
    ({ st with qlog := st.qlog ++ ips.map (fun ip => (host, rr, ip)) } : RState).answer_cache
      = st.answer_cache := by
  refine ⟨?_, rfl⟩
  have hshift := tryServers_timeout_shift T host rr st.referral_cache
    (RVal.name nd :: rest) pre ips st rfl hpre
  have hfail := tryServers_missing_glue T host rr nd rest
    { st with qlog := st.qlog ++ ips.map (fun ip => (host, rr, ip)) } hnd
  unfold resolve
  simp only [hmiss, hdm, hns]
  rw [resolveDomain_succ]
  simp only [hns, hsplit, hshift, hfail]

/-- The lame-delegation referral cache: "com." has an NS target with no
    glue A record anywhere in the cache. -/
def lameReferral : Cache := initReferral ++ [(["com"], [(.NS, [.name ["com", "ns1"]])])]

/-- State whose referral cache contains the glue-less "com." delegation. -/
def lameState : RState :=
  { answer_cache := [], referral_cache := lameReferral, qlog := [] }

/-- Witness for C7: resolving under the glue-less "com." delegation raises
    KeyError at the missing A record, terminating the request with an
    explicit failure and leaving the answer cache untouched. -/
theorem missing_glue_fatal_witness :
    resolve timeoutTransport 1 ["com", "example"] .A lameState =
      .error (.keyError, lameState) ∧
    lameState.answer_cache = lameState.answer_cache :=
  missing_glue_fatal timeoutTransport 0 ["com", "example"] .A lameState ["com"]
    [(.NS, [.name ["com", "ns1"]])] [.name ["com", "ns1"]] [] [] ["com", "ns1"] []
    rfl rfl rfl rfl List.Forall₂.nil rfl

/-- The per-item SOA test of the authority walk (line 116). -/
def isSoa : Item → Bool
  | .soa _ => true
  | _ => false

theorem authItems_snd (items : List Item) : (authItems items).2 = items.any isSoa := by
  induction items with
  | nil => rfl
  | cons i rest ih =>
      cases i with
      | ns t => simp [authItems, isSoa, ih]
      | cname t => simp [authItems, isSoa, ih]
      | a s => simp [authItems, isSoa, ih]
      | soa s => simp [authItems, isSoa]
      | other c s => simp [authItems, isSoa, ih]

theorem ingestAuthority_snd (l : List RRSet) :
    ∀ c : Cache, (ingestAuthority l c).2 = l.any (fun rs => rs.items.any isSoa) := by
  induction l with
  | nil => intro c; rfl
  | cons rs rest ih =>
      intro c
      simp [ingestAuthority, authItems_snd, ih]

theorem ingestAuthority_append (l₁ l₂ : List RRSet) :
    ∀ c : Cache,
      (ingestAuthority (l₁ ++ l₂) c).1 = (ingestAuthority l₂ (ingestAuthority l₁ c).1).1 := by
  induction l₁ with
  | nil => intro c; rfl
  | cons rs rest ih =>
      intro c
      simp [ingestAuthority, ih]

theorem ingestAuthority_preserve (l : List RRSet) (n : DName) (t : RRType) :
    ∀ c : Cache, (∀ rs ∈ l, rs.name ≠ n ∨ rs.rdtype ≠ t) →
      lookup2 (ingestAuthority l c).1 n t = lookup2 c n t := by
  induction l with
  | nil => intro c _; rfl
  | cons rs rest ih =>
      intro c hnl
      have h1 : lookup2 (ingestAuthority rest (putRC c rs.name rs.rdtype (authItems rs.items).1)).1 n t
          = lookup2 (putRC c rs.name rs.rdtype (authItems rs.items).1) n t :=
        ih _ (fun rs' h => hnl rs' (List.mem_cons_of_mem _ h))
      have h2 : lookup2 (putRC c rs.name rs.rdtype (authItems rs.items).1) n t = lookup2 c n t :=
        lookup2_putRC_other c rs.name n rs.rdtype t _
          ((hnl rs (List.mem_cons_self _ _)).imp Ne.symm Ne.symm)
      simp only [ingestAuthority]
      exact h1.trans h2

/-- Claim C3: a response with error code zero, an empty answer section, and
    an SOA item in its authority section is classified as final: the
    response itself is returned (negative answer), the state changes only
    by the authority ingestion (in particular the query log is unchanged —
    nothing is re-queried), and every authority record set — NS record
    sets included — is ingested into the referral cache keyed by its owner
    name (shown here for any record set not later overwritten in the same
    pass). -/
theorem negative_answer_final (T : Transport) (fuel : Nat) (resp : Response) (st : RState)
    (l₁ l₂ : List RRSet) (rs : RRSet)
    (hrc : resp.rcode = 0)
    (hans : resp.answer = [])
    (hsoa : ∃ rs' ∈ resp.authority, ∃ i ∈ rs'.items, isSoa i = true)
    (hsplit : resp.authority = l₁ ++ rs :: l₂)
    (hnl : ∀ rs' ∈ l₂, rs'.name ≠ rs.name ∨ rs'.rdtype ≠ rs.rdtype) :
    handleResponse T fuel resp st =
      .ok (some resp,
        { st with referral_cache := (ingestAuthority resp.authority st.referral_cache).1 }) ∧
    lookup2 (ingestAuthority resp.authority st.referral_cache).1 rs.name rs.rdtype
      = some (authItems rs.items).1 := by
  constructor
  · unfold handleResponse handleResponseGen
    have h0 : ¬ resp.rcode > 0 := by omega
    have hempty : resp.answer.isEmpty = true := by rw [hans]; rfl
    have hflag : (ingestAuthority resp.authority st.referral_cache).2 = true := by
      rw [ingestAuthority_snd]
      rw [List.any_eq_true]
      obtain ⟨rs', hrs', i, hi, hs⟩ := hsoa
      exact ⟨rs', hrs', List.any_eq_true.mpr ⟨i, hi, hs⟩⟩
    simp only [h0, if_false, hempty, if_true, hflag]
  · rw [hsplit, ingestAuthority_append]
    have hstep : (ingestAuthority (rs :: l₂) (ingestAuthority l₁ st.referral_cache).1).1
        = (ingestAuthority l₂ (putRC (ingestAuthority l₁ st.referral_cache).1
            rs.name rs.rdtype (authItems rs.items).1)).1 := by
      simp [ingestAuthority]
    rw [hstep,
      ingestAuthority_preserve l₂ rs.name rs.rdtype _ hnl,
      lookup2_putRC_self]

/-- A negative (SOA in authority) response that also carries an NS record
    set in the same authority section. -/
def soaResp : Response :=
  { rcode := 0
    answer := []
    authority :=
      [⟨["com", "example"], .SOA, [.soa "soadata"]⟩,
       ⟨["com", "example"], .NS, [.ns ["com", "example", "ns"]]⟩]
    additional := [] }

/-- Witness for C3: the SOA response is final (returned as-is, no
    re-query) and the NS record set beside the SOA is ingested keyed by
    its owner name. -/
theorem negative_answer_final_witness :
    handleResponse timeoutTransport 1 soaResp initState =
      .ok (some soaResp,
        { initState with
            referral_cache := (ingestAuthority soaResp.authority initState.referral_cache).1 }) ∧
    lookup2 (ingestAuthority soaResp.authority initState.referral_cache).1
        ["com", "example"] .NS
      = some (authItems [Item.ns ["com", "example", "ns"]]).1 :=
  negative_answer_final timeoutTransport 1 soaResp initState
    [⟨["com", "example"], .SOA, [.soa "soadata"]⟩] []
    ⟨["com", "example"], .NS, [.ns ["com", "example", "ns"]]⟩
    rfl rfl
    ⟨⟨["com", "example"], .SOA, [.soa "soadata"]⟩, List.mem_cons_self _ _,
      Item.soa "soadata", List.mem_cons_self _ _, rfl⟩
    rfl (fun _ h => absurd h (List.not_mem_nil _))

theorem ingestItems_all_a (n : DName) (t : RRType) :
    ∀ (items : List Item) (c : Cache), (∀ i ∈ items, ∃ a, i = Item.a a) →
      ∃ c', ingestItems n t items c = .ok c' ∧
        (items = [] → c' = c) ∧
        (∀ addr, items.getLast? = some (Item.a addr) →
            lookup2 c' n t = some [RVal.text addr]) ∧
        (∀ n' t', n' ≠ n ∨ t' ≠ t → lookup2 c' n' t' = lookup2 c n' t') := by
  intro items
  induction items with
  | nil =>
      intro c _
      exact ⟨c, rfl, fun _ => rfl, fun addr h => by simp at h, fun n' t' _ => rfl⟩
  | cons i rest ih =>
      intro c hall
      obtain ⟨a0, ha0⟩ := hall i (List.mem_cons_self _ _)
      subst ha0
      obtain ⟨c', hok, hnilc, hlast, hpres⟩ := ih (putRC c n t [RVal.text a0])
        (fun i' h => hall i' (List.mem_cons_of_mem _ h))
      refine ⟨c', ?_, ?_, ?_, ?_⟩
      · simp [ingestItems, itemAddress, hok]
      · intro h; cases h
      · intro addr hl
        cases rest with
        | nil =>
            simp at hl
            subst hl
            rw [hnilc rfl, lookup2_putRC_self]
        | cons r rest' =>
            rw [List.getLast?_cons_cons] at hl
            exact hlast addr hl
      · intro n' t' hne
        rw [hpres n' t' hne, lookup2_putRC_other c n n' t t' _ hne]

theorem ingestAdditional_all_a :
    ∀ (l : List RRSet) (c : Cache), (∀ rs ∈ l, ∀ i ∈ rs.items, ∃ a, i = Item.a a) →
      ∃ c', ingestAdditional l c = .ok c' ∧
        (∀ n' t', (∀ rs ∈ l, rs.name ≠ n' ∨ rs.rdtype ≠ t') →
            lookup2 c' n' t' = lookup2 c n' t') := by
  intro l
  induction l with
  | nil => intro c _; exact ⟨c, rfl, fun _ _ _ => rfl⟩
  | cons rs rest ih =>
      intro c hall
      obtain ⟨c₁, hok1, -, -, hpres1⟩ := ingestItems_all_a rs.name rs.rdtype rs.items c
        (hall rs (List.mem_cons_self _ _))
      obtain ⟨c', hok2, hpres2⟩ := ih c₁ (fun rs' h => hall rs' (List.mem_cons_of_mem _ h))
      refine ⟨c', ?_, ?_⟩
      · simp [ingestAdditional, hok1, hok2]
      · intro n' t' hne
        rw [hpres2 n' t' (fun rs' h => hne rs' (List.mem_cons_of_mem _ h)),
            hpres1 n' t' ((hne rs (List.mem_cons_self _ _)).imp Ne.symm Ne.symm)]

theorem ingestAdditional_last :
    ∀ (l₁ : List RRSet) (rs : RRSet) (l₂ : List RRSet) (c : Cache) (addr : String),
      (∀ rs' ∈ l₁ ++ rs :: l₂, ∀ i ∈ rs'.items, ∃ a, i = Item.a a) →
      rs.items.getLast? = some (Item.a addr) →
      (∀ rs' ∈ l₂, rs'.name ≠ rs.name ∨ rs'.rdtype ≠ rs.rdtype) →
      ∃ c', ingestAdditional (l₁ ++ rs :: l₂) c = .ok c' ∧
        lookup2 c' rs.name rs.rdtype = some [RVal.text addr] := by
  intro l₁
  induction l₁ with
  | nil =>
      intro rs l₂ c addr hall hlast hnl
      obtain ⟨c₁, hok1, -, hl1, -⟩ := ingestItems_all_a rs.name rs.rdtype rs.items c
        (hall rs (List.mem_cons_self _ _))
      obtain ⟨c', hok2, hpres2⟩ := ingestAdditional_all_a l₂ c₁
        (fun rs' h => hall rs' (List.mem_cons_of_mem _ h))
      refine ⟨c', ?_, ?_⟩
      · simp only [List.nil_append]
        simp [ingestAdditional, hok1, hok2]
      · rw [hpres2 rs.name rs.rdtype hnl]
        exact hl1 addr hlast
  | cons rs₀ l₁' ih =>
      intro rs l₂ c addr hall hlast hnl
      obtain ⟨c₁, hok1, -, -, -⟩ := ingestItems_all_a rs₀.name rs₀.rdtype rs₀.items c
        (hall rs₀ (List.mem_cons_self _ _))
      obtain ⟨c', hok2, hl2⟩ := ih rs l₂ c₁ addr
        (fun rs' h => hall rs' (List.mem_cons_of_mem _ h)) hlast hnl
      refine ⟨c', ?_, hl2⟩
      simp [ingestAdditional, hok1, hok2]

/-- The referral cache produced by a full no-answer, no-SOA classification
    pass: authority ingestion followed by additional-glue ingestion (taking
    the partially-updated cache if the glue walk raised). -/
def ingestedCache (resp : Response) (c : Cache) : Cache :=
  match ingestAdditional resp.additional (ingestAuthority resp.authority c).1 with
  | .ok c' => c'
  | .error ec => ec.2

/-- Claim C9 (amended): for a response classified "need deeper referral"
    (rcode zero, empty answer, no SOA in authority) whose additional
    section carries A-type glue items, classification reports none and the
    glue record sets are ingested into the referral cache keyed by their
    owner name — but each (owner, type) entry is stored as the one-element
    list holding the address of the record set's last item, every item in
    turn overwriting the entry (not the full list of the record set's
    addresses; see the counterexample). -/
theorem glue_ingestion (T : Transport) (fuel : Nat) (resp : Response) (st : RState)
    (l₁ l₂ : List RRSet) (rs : RRSet) (addr : String)
    (hrc : resp.rcode = 0)
    (hans : resp.answer = [])
    (hnosoa : ∀ rs' ∈ resp.authority, ∀ i ∈ rs'.items, isSoa i = false)
    (hsplit : resp.additional = l₁ ++ rs :: l₂)
    (hall : ∀ rs' ∈ resp.additional, ∀ i ∈ rs'.items, ∃ a, i = Item.a a)
    (hlast : rs.items.getLast? = some (Item.a addr))
    (hnl : ∀ rs' ∈ l₂, rs'.name ≠ rs.name ∨ rs'.rdtype ≠ rs.rdtype) :
    handleResponse T fuel resp st =
      .ok (none, { st with referral_cache := ingestedCache resp st.referral_cache }) ∧
    lookup2 (ingestedCache resp st.referral_cache) rs.name rs.rdtype
      = some [RVal.text addr] := by
  have hflag : (ingestAuthority resp.authority st.referral_cache).2 = false := by
    rw [ingestAuthority_snd]
    rw [List.any_eq_false]
    intro rs' h
    rw [Bool.not_eq_true, List.any_eq_false]
    intro i hi
    rw [Bool.not_eq_true]
    exact hnosoa rs' h i hi
  obtain ⟨c', hok, hl⟩ := ingestAdditional_last l₁ rs l₂
    (ingestAuthority resp.authority st.referral_cache).1 addr
    (hsplit ▸ hall) hlast hnl
  have hic : ingestedCache resp st.referral_cache = c' := by
    unfold ingestedCache
    rw [hsplit, hok]
  constructor
  · unfold handleResponse handleResponseGen
    have h0 : ¬ resp.rcode > 0 := by omega
    have hempty : resp.answer.isEmpty = true := by rw [hans]; rfl
    simp only [h0, if_false, hempty, if_true, hflag, Bool.false_eq_true, hsplit, hok, hic]
  · rw [hic]
    exact hl

/-- A "need deeper referral" response whose additional glue record set
    carries two A addresses. -/
def glueResp : Response :=
  { rcode := 0
    answer := []
    authority := [⟨["com"], .NS, [.ns ["com", "ns1"]]⟩]
    additional := [⟨["com", "ns1"], .A, [.a "1.1.1.1", .a "2.2.2.2"]⟩] }

/-- Counterexample to C9 as stated: the glue record set for ns1.com.
    carries the two addresses 1.1.1.1 and 2.2.2.2, but after
    classification the referral cache stores only the one-element list
    with the last address — each item's assignment overwrote the previous
    one (resolver.py line 130 assigns [item.address] per item) — not the
    list of all address values carried by the record set. -/
theorem glue_ingestion_counterexample :
    handleResponse timeoutTransport 1 glueResp initState =
      .ok (none,
        { answer_cache := []
          referral_cache :=
            [([], rootSeedMap),
             (aRootName, [(.A, [.text "198.41.0.4"])]),
             (bRootName, [(.A, [.text "199.9.14.201"])]),
             (["com"], [(.NS, [.name ["com", "ns1"]])]),
             (["com", "ns1"], [(.A, [.text "2.2.2.2"])])]
          qlog := [] }) ∧
    lookup2
        [([], rootSeedMap),
         (aRootName, [(.A, [.text "198.41.0.4"])]),
         (bRootName, [(.A, [.text "199.9.14.201"])]),
         (["com"], [(.NS, [.name ["com", "ns1"]])]),
         (["com", "ns1"], [(.A, [.text "2.2.2.2"])])]
        ["com", "ns1"] .A = some [RVal.text "2.2.2.2"] ∧
    some [RVal.text "2.2.2.2"]
      ≠ some [RVal.text "1.1.1.1", RVal.text "2.2.2.2"] :=
  ⟨rfl, rfl, by decide⟩

/-- Witness for C9 (amended): classifying glueResp reports "need deeper
    referral" and stores the singleton last-address list for the glue
    record set's owner name. -/
theorem glue_ingestion_witness :
    handleResponse timeoutTransport 1 glueResp initState =
      .ok (none,
        { initState with
            referral_cache := ingestedCache glueResp initState.referral_cache }) ∧
    lookup2 (ingestedCache glueResp initState.referral_cache) ["com", "ns1"] .A
      = some [RVal.text "2.2.2.2"] :=
  glue_ingestion timeoutTransport 1 glueResp initState [] []
    ⟨["com", "ns1"], .A, [.a "1.1.1.1", .a "2.2.2.2"]⟩ "2.2.2.2"
    rfl rfl (by decide) rfl
    (by
      intro rs' h i hi
      simp only [glueResp, List.mem_singleton] at h
      subst h
      simp only [List.mem_cons, List.mem_singleton] at hi
      rcases hi with h1 | h2 | h3
      · exact ⟨"1.1.1.1", h1⟩
      · exact ⟨"2.2.2.2", h2⟩
      · exact absurd h3 (List.not_mem_nil _))
    rfl
    (fun _ h => absurd h (List.not_mem_nil _))

/-- Ancestor test on names: isAnc p n is true when p's label list is a
    list-order prefix of n's, i.e. p is an ancestor of n (including
    p = n) in the label-suffix sense of the spec. -/
def isAnc : DName → DName → Bool
  | [], _ => true
  | _ :: _, [] => false
  | a :: as, b :: bs => a == b && isAnc as bs

theorem isAnc_refl : ∀ l : DName, isAnc l l = true := by
  intro l
  induction l with
  | nil => rfl
  | cons a as ih => simp [isAnc, ih]

theorem isAnc_append : ∀ (p l l' : DName), isAnc p l = true → isAnc p (l ++ l') = true := by
  intro p
  induction p with
  | nil => intro l l' _; rfl
  | cons a as ih =>
      intro l l' h
      cases l with
      | nil => simp [isAnc] at h
      | cons b bs =>
          simp only [isAnc, Bool.and_eq_true, beq_iff_eq] at h
          obtain ⟨hab, hrest⟩ := h
          subst hab
          simp only [List.cons_append, isAnc, Bool.and_eq_true, beq_iff_eq]
          exact ⟨trivial, ih bs l' hrest⟩

theorem gdmRev_root :
    ∀ r : List String,
      isAnc aRootName r.reverse = false → isAnc bRootName r.reverse = false →
      gdmRev initReferral r = some ([], rootSeedMap) := by
  intro r
  induction r with
  | nil => intro _ _; rfl
  | cons x rest ih =>
      intro ha hb
      rw [List.reverse_cons] at ha hb
      have hne : ([] : DName) ≠ rest.reverse ++ [x] := by simp
      have hna : aRootName ≠ rest.reverse ++ [x] := by
        intro hcontra
        rw [← hcontra, isAnc_refl] at ha
        cases ha
      have hnb : bRootName ≠ rest.reverse ++ [x] := by
        intro hcontra
        rw [← hcontra, isAnc_refl] at hb
        cases hb
      have hlook : lookupC initReferral (rest.reverse ++ [x]) = none := by
        simp [initReferral, lookupC, hne, hna, hnb]
      have ha' : isAnc aRootName rest.reverse = false := by
        cases hcase : isAnc aRootName rest.reverse with
        | false => rfl
        | true =>
            rw [isAnc_append aRootName rest.reverse [x] hcase] at ha
            cases ha
      have hb' : isAnc bRootName rest.reverse = false := by
        cases hcase : isAnc bRootName rest.reverse with
        | false => rfl
        | true =>
            rw [isAnc_append bRootName rest.reverse [x] hcase] at hb
            cases hb
      unfold gdmRev
      rw [List.reverse_cons, hlook]
      exact ih ha' hb'

/-- Claim C8 (amended): immediately after initialization, for every queried
    name of which neither seeded root-server name is an ancestor,
    deepestMatch returns the root entry, whose NS set contains exactly the
    two seeded root server names; and those two names map in the referral
    cache to their seeded A addresses.  deepestMatch and the cache lookups
    are pure functions of the cache — no transport is involved, so no
    network call is made.  (For the seeded root-server names themselves, or
    names below them, deepestMatch returns that name's own A-only entry
    instead of the root — see the counterexample.) -/
theorem root_seed (n : DName)
    (ha : isAnc aRootName n = false) (hb : isAnc bRootName n = false) :
    get_deepest_match initState.referral_cache n = some ([], rootSeedMap) ∧
    lookupRM rootSeedMap .NS = some [RVal.name aRootName, RVal.name bRootName] ∧
    lookupC initState.referral_cache aRootName = some [(.A, [.text "198.41.0.4"])] ∧
    lookupC initState.referral_cache bRootName = some [(.A, [.text "199.9.14.201"])] := by
  refine ⟨?_, rfl, rfl, rfl⟩
  show gdmRev initReferral n.reverse = some ([], rootSeedMap)
  refine gdmRev_root n.reverse ?_ ?_
  · rw [List.reverse_reverse]; exact ha
  · rw [List.reverse_reverse]; exact hb

/-- Counterexample to C8 as stated: querying deepestMatch for the seeded
    name a.root-servers.net itself returns that name's own entry — which
    has no NS set at all — rather than the root entry, although the cache
    holds no entries beyond the seeded ones. -/
theorem root_seed_counterexample :
    get_deepest_match initState.referral_cache aRootName
      = some (aRootName, [(.A, [.text "198.41.0.4"])]) ∧
    aRootName ≠ ([] : DName) ∧
    lookupRM [(RRType.A, [RVal.text "198.41.0.4"])] .NS = none :=
  ⟨rfl, by decide, rfl⟩

/-- Witness for C8 (amended): for the unrelated name "example.com." the
    deepest match is the seeded root entry with exactly the two root-server
    names, and their glue addresses are the seeded ones. -/
theorem root_seed_witness :
    get_deepest_match initState.referral_cache ["com", "example"]
      = some ([], rootSeedMap) ∧
    lookupRM rootSeedMap .NS = some [RVal.name aRootName, RVal.name bRootName] ∧
    lookupC initState.referral_cache aRootName = some [(.A, [.text "198.41.0.4"])] ∧
    lookupC initState.referral_cache bRootName = some [(.A, [.text "199.9.14.201"])] :=
  root_seed ["com", "example"] rfl rfl

theorem bytesLt_irrefl : ∀ a : List Nat, bytesLt a a = false := by
  intro a
  induction a with
  | nil => rfl
  | cons x xs ih => simp [bytesLt, ih]

theorem bytesLt_trans :
    ∀ a b c : List Nat, bytesLt a b = true → bytesLt b c = true → bytesLt a c = true := by
  intro a
  induction a with
  | nil =>
      intro b c hab hbc
      cases b with
      | nil => cases hab
      | cons y ys =>
          cases c with
          | nil => simp [bytesLt] at hbc
          | cons z zs => rfl
  | cons x xs ih =>
      intro b c hab hbc
      cases b with
      | nil => simp [bytesLt] at hab
      | cons y ys =>
          cases c with
          | nil => simp [bytesLt] at hbc
          | cons z zs =>
              simp only [bytesLt] at hab hbc ⊢
              by_cases hxy : x < y
              · by_cases hyz : y < z
                · rw [if_pos (Nat.lt_trans hxy hyz)]
                · by_cases hzy : z < y
                  · rw [if_neg hyz, if_pos hzy] at hbc; cases hbc
                  · have hxz : x < z := by omega
                    rw [if_pos hxz]
              · rw [if_neg hxy] at hab
                by_cases hyx : y < x
                · rw [if_pos hyx] at hab; cases hab
                · rw [if_neg hyx] at hab
                  by_cases hyz : y < z
                  · have hxz : x < z := by omega
                    rw [if_pos hxz]
                  · by_cases hzy : z < y
                    · rw [if_neg hyz, if_pos hzy] at hbc; cases hbc
                    · have hnxz : ¬ x < z := by omega
                      have hnzx : ¬ z < x := by omega
                      rw [if_neg hyz, if_neg hzy] at hbc
                      rw [if_neg hnxz, if_neg hnzx]
                      exact ih ys zs hab hbc

theorem itemLt_irrefl (i : Item) : itemLt i i = false :=
  bytesLt_irrefl _

theorem itemLt_trans (a b c : Item) :
    itemLt a b = true → itemLt b c = true → itemLt a c = true :=
  bytesLt_trans _ _ _

theorem foldlMin_spec :
    ∀ (rest : List Item) (acc : Item),
      (rest.foldl (fun m x => if itemLt x m then x else m) acc = acc ∨
        rest.foldl (fun m x => if itemLt x m then x else m) acc ∈ rest) ∧
      (rest.foldl (fun m x => if itemLt x m then x else m) acc = acc ∨
        itemLt (rest.foldl (fun m x => if itemLt x m then x else m) acc) acc = true) ∧
      (∀ x ∈ rest, itemLt x (rest.foldl (fun m x => if itemLt x m then x else m) acc) = false) := by
  intro rest
  induction rest with
  | nil =>
      intro acc
      exact ⟨Or.inl rfl, Or.inl rfl, fun x h => absurd h (List.not_mem_nil _)⟩
  | cons y ys ih =>
      intro acc
      simp only [List.foldl_cons]
      obtain ⟨hmem, hle, hmin⟩ := ih (if itemLt y acc then y else acc)
      by_cases hya : itemLt y acc = true
      · simp only [if_pos hya] at hmem hle hmin ⊢
        refine ⟨?_, ?_, ?_⟩
        · rcases hmem with h1 | h1
          · exact Or.inr (by rw [h1]; exact List.mem_cons_self _ _)
          · exact Or.inr (List.mem_cons_of_mem _ h1)
        · rcases hle with h1 | h1
          · exact Or.inr (by rw [h1]; exact hya)
          · exact Or.inr (itemLt_trans _ _ _ h1 hya)
        · intro x hx
          rcases List.mem_cons.mp hx with hx1 | hx1
          · subst hx1
            rcases hle with h1 | h1
            · rw [h1]; exact itemLt_irrefl _
            · cases hc : itemLt x (ys.foldl (fun m x => if itemLt x m then x else m) x) with
              | false => rfl
              | true =>
                  have h2 := itemLt_trans _ _ _ hc h1
                  rw [itemLt_irrefl] at h2
                  cases h2
          · exact hmin x hx1
      · have hya' : itemLt y acc = false := by
          cases h : itemLt y acc with
          | false => rfl
          | true => exact absurd h hya
        simp only [if_neg hya] at hmem hle hmin ⊢
        refine ⟨?_, ?_, ?_⟩
        · rcases hmem with h1 | h1
          · exact Or.inl h1
          · exact Or.inr (List.mem_cons_of_mem _ h1)
        · exact hle
        · intro x hx
          rcases List.mem_cons.mp hx with hx1 | hx1
          · subst hx1
            rcases hle with h1 | h1
            · rw [h1]; exact hya'
            · cases hc : itemLt x (ys.foldl (fun m x => if itemLt x m then x else m) acc) with
              | false => rfl
              | true =>
                  have h2 := itemLt_trans _ _ _ hc h1
                  rw [h2] at hya'
                  cases hya'
          · exact hmin x hx1

/-- Python min() over a record set's items returns an item of the set that
    no other item strictly precedes under the rdata ordering. -/
theorem minItem_spec (items : List Item) (m : Item) (h : minItem items = some m) :
    m ∈ items ∧ ∀ x ∈ items, itemLt x m = false := by
  cases items with
  | nil => simp [minItem] at h
  | cons i rest =>
      simp only [minItem, Option.some.injEq] at h
      subst h
      obtain ⟨hmem, hle, hmin⟩ := foldlMin_spec rest i
      constructor
      · rcases hmem with h1 | h1
        · rw [h1]; exact List.mem_cons_self _ _
        · exact List.mem_cons_of_mem _ h1
      · intro x hx
        rcases List.mem_cons.mp hx with hx1 | hx1
        · subst hx1
          rcases hle with h1 | h1
          · rw [h1]; exact itemLt_irrefl _
          · cases hc : itemLt x (rest.foldl (fun m x => if itemLt x m then x else m) x) with
            | false => rfl
            | true =>
                have h2 := itemLt_trans _ _ _ hc h1
                rw [itemLt_irrefl] at h2
                cases h2
        · exact hmin x hx1

/-- Claim C4 (amended): for a response with error code zero and a non-empty
    answer section, the chase takes the FIRST CNAME record set of the
    answer section (not the global minimum over all of the answer
    section's CNAME records — see the counterexample), picks within it the
    record with the canonically smallest target, resolves (cnameTarget, A)
    via a fresh descent starting from deepestMatch(cnameTarget), prepends
    that CNAME record set as the first element of the nested result's
    answer section, and returns it as the final answer; if the nested
    resolution returns null the chase raises a fatal AttributeError, and a
    nested exception propagates — never a partial answer. -/
theorem cname_chase_first_set (T : Transport) (fuel : Nat) (resp : Response) (st : RState)
    (rs : RRSet) (tgt : DName) (dm : DName × RecordMap)
    (hrc : resp.rcode = 0)
    (hne : resp.answer ≠ [])
    (hfc : firstCname resp.answer = some rs)
    (hmin : minItem rs.items = some (Item.cname tgt))
    (hdm : get_deepest_match st.referral_cache tgt = some dm)
    (hns : lookupRM dm.2 .NS ≠ none) :
    (Item.cname tgt ∈ rs.items ∧
      ∀ i ∈ rs.items, ∀ t', i = Item.cname t' →
        bytesLt (nameWire t') (nameWire tgt) = false) ∧
    (∀ ans st', resolveDomain T fuel tgt .A dm st = .ok (some ans, st') →
        handleResponse T fuel resp st =
          .ok (some { ans with answer := rs :: ans.answer }, st')) ∧
    (∀ st', resolveDomain T fuel tgt .A dm st = .ok (none, st') →
        handleResponse T fuel resp st = .error (.attrError, st')) ∧
    (∀ e, resolveDomain T fuel tgt .A dm st = .error e →
        handleResponse T fuel resp st = .error e) := by
  have hspec := minItem_spec rs.items (Item.cname tgt) hmin
  have hkey : handleResponse T fuel resp st =
      match resolveDomain T fuel tgt .A dm st with
      | .error e => .error e
      | .ok (none, st') => .error (.attrError, st')
      | .ok (some ans, st') => .ok (some { ans with answer := rs :: ans.answer }, st') := by
    unfold handleResponse handleResponseGen
    have h0 : ¬ resp.rcode > 0 := by omega
    have hempty : resp.answer.isEmpty = false := by
      cases hr : resp.answer with
      | nil => exact absurd hr hne
      | cons a l => rfl
    simp only [h0, if_false, hempty, Bool.false_eq_true, hfc]
    unfold cnameChaseGen
    rw [hmin]
    simp only [itemTarget, hdm]
    cases hns' : lookupRM dm.2 .NS with
    | none => exact absurd hns' hns
    | some nsl' => simp only [hns']
  refine ⟨?_, ?_, ?_, ?_⟩
  · refine ⟨hspec.1, ?_⟩
    intro i hi t' hit
    have hfalse := hspec.2 i hi
    rw [hit] at hfalse
    exact hfalse
  · intro ans st' hrd
    rw [hkey]
    simp only [hrd]
  · intro st' hrd
    rw [hkey]
    simp only [hrd]
  · intro e hrd
    rw [hkey]
    simp only [hrd]

/-- First CNAME record set of the two-CNAME counterexample answer: its
    target z.com. is canonically larger than the second set's a.com. -/
def rsZ : RRSet := ⟨["com", "al1"], .CNAME, [.cname ["com", "z"]]⟩

/-- Second CNAME record set, with the canonically smallest target a.com. -/
def rsA2 : RRSet := ⟨["com", "al2"], .CNAME, [.cname ["com", "a"]]⟩

/-- An answer section holding two CNAME record sets. -/
def twoCnameResp : Response :=
  { rcode := 0, answer := [rsZ, rsA2], authority := [], additional := [] }

/-- The answer the transport serves for every query in the counterexample:
    an A record for z.com. -/
def respZ : Response :=
  { rcode := 0, answer := [⟨["com", "z"], .A, [.a "9.9.9.9"]⟩],
    authority := [], additional := [] }

def zTransport : Transport := fun _ _ _ => some respZ

/-- Counterexample to C4 as stated: although a.com. (the second record
    set's target) is canonically smaller than z.com., the chase resolves
    z.com. — the target drawn from the FIRST CNAME record set — as both
    the issued query (the query log entry) and the returned answer show;
    the claim's "smallest target among the answer section's CNAME
    records" does not hold across record sets. -/
theorem cname_chase_first_set_counterexample :
    handleResponse zTransport 2 twoCnameResp initState =
      .ok (some { rcode := 0,
                  answer := [rsZ, ⟨["com", "z"], .A, [.a "9.9.9.9"]⟩],
                  authority := [], additional := [] },
           { initState with qlog := [(["com", "z"], .A, "198.41.0.4")] }) ∧
    bytesLt (nameWire ["com", "a"]) (nameWire ["com", "z"]) = true :=
  ⟨rfl, rfl⟩

/-- The single-CNAME chase scenario of the witness. -/
def cnameSet : RRSet := ⟨["com", "alias"], .CNAME, [.cname ["com", "target"]]⟩

def cnameResp : Response :=
  { rcode := 0, answer := [cnameSet], authority := [], additional := [] }

def targetResp : Response :=
  { rcode := 0, answer := [⟨["com", "target"], .A, [.a "93.184.216.34"]⟩],
    authority := [], additional := [] }

def cnameTransport : Transport := fun _ _ _ => some targetResp

/-- Witness for C4 (amended): chasing the alias's CNAME resolves
    (target.com., A) from the root referral and returns the nested answer
    with the CNAME record set prepended. -/
theorem cname_chase_first_set_witness :
    handleResponse cnameTransport 1 cnameResp initState =
      .ok (some { targetResp with answer := cnameSet :: targetResp.answer },
           { initState with qlog := [(["com", "target"], .A, "198.41.0.4")] }) :=
  (cname_chase_first_set cnameTransport 1 cnameResp initState cnameSet
      ["com", "target"] ([], rootSeedMap)
      rfl (by decide) rfl rfl rfl (by decide)).2.1
    targetResp { initState with qlog := [(["com", "target"], .A, "198.41.0.4")] } rfl
